import Mathlib

/-!
Verification development for the pdf-extractor repository.

The core under verification is the extraction-and-pairing pipeline of
src/pdf-extract-library.js (function extractImagesAndLabels) together with
the surrounding Electron main-process handlers (the start-processing
handler with its finally-block cleanup, handleAutoSave, and the clear-temp
handler).  The JavaScript code is shallowly embedded:

* JS strings are Lean String values; the string primitives the code uses
  (String.prototype.trim, String.prototype.endsWith, String.prototype.split
  composed with Array.prototype.pop) are re-implemented below on the
  underlying character lists so that every definition is executable.
* The regex scan over the parsed PDF text is abstracted as the list of
  successive match values (match[0] of ARTIFACT_ID_REGEX.exec); the loop
  body that trims and de-duplicates them is embedded literally.
* localeCompare with the numeric collation option is embedded as a natural
  comparison that tokenizes a filename into literal characters and maximal
  digit runs and compares digit runs by their integer value (case folded,
  matching the base sensitivity option).
* Node Buffer base64 encoding/decoding is embedded over byte lists
  (List Nat with entries below 256).
* The filesystem is an explicit state: a list of existing directories plus
  a list of (directory, filename, content) files.  fs.mkdirSync,
  fs.readdirSync, fs.readFileSync, fs.rmSync and fs.existsSync become
  pure state transformers, and the pipeline threads the state.
* The external render backend (node-poppler / pdftocairo) is an input of
  the run environment: either a diagnostic error or the list of files it
  writes into the workspace.
-/

namespace PdfX

/-! ## JavaScript string primitives -/

/-- Embedding of the JS whitespace class used by String.prototype.trim. -/
def jsWhite (c : Char) : Bool :=
  c == ' ' || c == '\t' || c == '\n' || c == '\r'

/-- String.prototype.trim on the character list: drop leading and trailing
whitespace. -/
def jsTrimL (cs : List Char) : List Char :=
  ((cs.dropWhile jsWhite).reverse.dropWhile jsWhite).reverse

/-- String.prototype.trim. -/
def jsTrim (s : String) : String := ⟨jsTrimL s.data⟩

/-- String.prototype.endsWith. -/
def jsEndsWith (s suffix : String) : Bool :=
  suffix.data.reverse.isPrefixOf s.data.reverse

/-! ## Label extractor (the regex-scan loop of extractImagesAndLabels)

The while loop
  while ((match = ARTIFACT_ID_REGEX.exec(pdfText)) !== null) {
      const label = match[0].trim();
      if (!foundLabels.includes(label)) foundLabels.push(label);
  }
is embedded as a fold over the list of successive match values. -/

/-- One iteration of the label-collection loop body. -/
def labelStep (acc : List String) (m : String) : List String :=
  let label := jsTrim m
  if acc.contains label then acc else acc ++ [label]

/-- The label-collection loop: fold the loop body over the matches the
regex scan produced, starting from the empty foundLabels array. -/
def collectLabels (ms : List String) : List String :=
  ms.foldl labelStep []

/-- Reference function: keep the first occurrence of every value of a
list, in first-occurrence order. -/
def firstOcc : List String → List String
  | [] => []
  | x :: xs => x :: firstOcc (xs.filter (fun y => y ≠ x))
termination_by l => l.length
decreasing_by
  have h := (List.filter_sublist (l := xs) (p := fun y => decide (y ≠ x))).length_le
  simp only [List.length_cons]
  omega

/-! ## Natural (numeric-aware) filename ordering

Embedding of the sort comparator
  (a, b) => a.localeCompare(b, undefined, { numeric: true, sensitivity: 'base' })
used on the workspace listing: a string is tokenized into literal
characters (case folded, for the base sensitivity) and maximal digit runs,
a digit run is compared by its integer value, and token lists are compared
lexicographically. -/

/-- Value of a digit run. -/
def digitsVal (ds : List Char) : Nat :=
  ds.foldl (fun n d => n * 10 + (d.toNat - 48)) 0

/-- A token of the numeric collation: the code point of a single
(case-folded) literal character, or a maximal digit run taken as an
integer. -/
inductive NToken where
  | chr (c : Nat)
  | num (n : Nat)
deriving DecidableEq

/-- Tokenizer worker: the first argument carries the value of the digit
run currently being read (none when not inside a digit run). -/
def tokenizeAux : Option Nat → List Char → List NToken
  | none, [] => []
  | some n, [] => [NToken.num n]
  | none, c :: cs =>
    if c.isDigit then tokenizeAux (some (c.toNat - 48)) cs
    else NToken.chr c.toLower.toNat :: tokenizeAux none cs
  | some n, c :: cs =>
    if c.isDigit then tokenizeAux (some (n * 10 + (c.toNat - 48))) cs
    else NToken.num n :: NToken.chr c.toLower.toNat :: tokenizeAux none cs

/-- Tokenize a character list for numeric collation: maximal digit runs
become num tokens, any other character is a chr token. -/
def tokenize (cs : List Char) : List NToken := tokenizeAux none cs

/-- Compare two tokens: digit runs are compared as integers, literal
characters by their (case-folded) code point, and a digit run sorts before
a literal character. -/
def cmpTok : NToken → NToken → Ordering
  | NToken.num m, NToken.num n => compare m n
  | NToken.num _, NToken.chr _ => Ordering.lt
  | NToken.chr _, NToken.num _ => Ordering.gt
  | NToken.chr a, NToken.chr b => compare a b

/-- Lexicographic comparison of token lists. -/
def cmpTokens : List NToken → List NToken → Ordering
  | [], [] => Ordering.eq
  | [], _ :: _ => Ordering.lt
  | _ :: _, [] => Ordering.gt
  | x :: xs, y :: ys =>
    match cmpTok x y with
    | Ordering.eq => cmpTokens xs ys
    | o => o

/-- The numeric-aware comparator applied to two filenames. -/
def naturalCompare (a b : String) : Ordering :=
  cmpTokens (tokenize a.data) (tokenize b.data)

/-- The ordering relation induced by the comparator (comparator result not
positive). -/
def naturalLe (a b : String) : Prop := naturalCompare a b ≠ Ordering.gt

instance : DecidableRel naturalLe := fun a b => by
  unfold naturalLe; infer_instance

/-- The sort of the workspace listing:
  .sort((a, b) => a.localeCompare(b, undefined, { numeric: true, sensitivity: 'base' }))
embedded as a stable sort by the natural comparator. -/
def naturalSort (files : List String) : List String :=
  List.insertionSort naturalLe files

/-! ## Base64 (Node Buffer encoding)

imageBuffer.toString('base64') and Buffer.from(s, 'base64') embedded over
byte lists (List Nat, entries below 256). -/

/-- The standard base64 alphabet. -/
def b64Alphabet : List Char :=
  ['A','B','C','D','E','F','G','H','I','J','K','L','M',
   'N','O','P','Q','R','S','T','U','V','W','X','Y','Z',
   'a','b','c','d','e','f','g','h','i','j','k','l','m',
   'n','o','p','q','r','s','t','u','v','w','x','y','z',
   '0','1','2','3','4','5','6','7','8','9','+','/']

/-- Character for a sextet value. -/
def encChar (n : Nat) : Char := b64Alphabet.getD n 'A'

/-- Sextet value of a base64 character. -/
def decChar (c : Char) : Nat := b64Alphabet.indexOf c

/-- Base64-encode a byte list, three bytes to four characters, with
padding on a final one- or two-byte group. -/
def encodeChunks : List Nat → List Char
  | [] => []
  | [b1] =>
    [encChar (b1 / 4), encChar (b1 % 4 * 16), '=', '=']
  | [b1, b2] =>
    [encChar (b1 / 4), encChar (b1 % 4 * 16 + b2 / 16), encChar (b2 % 16 * 4), '=']
  | b1 :: b2 :: b3 :: rest =>
    encChar (b1 / 4) :: encChar (b1 % 4 * 16 + b2 / 16)
      :: encChar (b2 % 16 * 4 + b3 / 64) :: encChar (b3 % 64)
      :: encodeChunks rest

/-- imageBuffer.toString('base64'). -/
def b64encode (bs : List Nat) : String := ⟨encodeChunks bs⟩

/-- Reassemble bytes from a list of sextet values (groups of four sextets
give three bytes; a trailing group of three or two sextets gives two bytes
or one). -/
def sexDecode : List Nat → List Nat
  | [] => []
  | [_] => []
  | [s1, s2] => [s1 * 4 + s2 / 16]
  | [s1, s2, s3] => [s1 * 4 + s2 / 16, s2 % 16 * 16 + s3 / 4]
  | s1 :: s2 :: s3 :: s4 :: rest =>
    (s1 * 4 + s2 / 16) :: (s2 % 16 * 16 + s3 / 4) :: (s3 % 4 * 64 + s4)
      :: sexDecode rest

/-- Buffer.from(s, 'base64') on the character list: drop padding, map
characters to sextets, reassemble bytes. -/
def b64decodeL (cs : List Char) : List Nat :=
  sexDecode ((cs.filter (fun c => c != '=')).map decChar)

/-! ## The dataUrl payload extraction of handleAutoSave

item.dataUrl.split(';base64,').pop() embedded on character lists.  The
worker carries the characters of the current piece in reverse, and a fuel
argument bounding the number of steps (initialized with the length of the
input, which always suffices) keeps the recursion structural. -/

/-- The separator ';base64,' of the split. -/
def splitSep : List Char := [';', 'b', 'a', 's', 'e', '6', '4', ',']

/-- Worker for String.prototype.split(';base64,'). -/
def splitGo : Nat → List Char → List Char → List (List Char)
  | _, acc, [] => [acc.reverse]
  | 0, acc, cs => [acc.reverse ++ cs]
  | fuel + 1, acc, c :: cs =>
    if splitSep.isPrefixOf (c :: cs) then
      acc.reverse :: splitGo fuel [] (cs.drop 7)
    else
      splitGo fuel (c :: acc) cs

/-- item.dataUrl.split(';base64,').pop(): the last piece of the split. -/
def jsSplitPop (s : String) : String :=
  ⟨(splitGo s.data.length [] s.data).getLastD []⟩

/-! ## Artifacts and the pairing loop of extractImagesAndLabels -/

/-- The output unit pushed onto results: { name, dataUrl }. -/
structure Artifact where
  name : String
  dataUrl : String
deriving DecidableEq

instance : Inhabited Artifact := ⟨{ name := "", dataUrl := "" }⟩

/-- The dataUrl string built for one artifact. -/
def mkDataUrl (bytes : List Nat) : String :=
  "data:image/png;base64," ++ b64encode bytes

/-- The pairing loop of extractImagesAndLabels: for i below
min(foundLabels.length, extractedFiles.length), read the i-th sorted file
and push { name: label + '.png', dataUrl: 'data:image/png;base64,' + b64 }. -/
def pairLoop (foundLabels extractedFiles : List String)
    (readBytes : String → List Nat) : List Artifact :=
  (List.range (min foundLabels.length extractedFiles.length)).map fun i =>
    { name := foundLabels.getD i "" ++ ".png"
      dataUrl := mkDataUrl (readBytes (extractedFiles.getD i "")) }

/-! ## The filename cleaning of handleAutoSave -/

/-- Case-insensitive prefix match of a (lowercase) pattern against the
text. -/
def matchCI : List Char → List Char → Bool
  | [], _ => true
  | _ :: _, [] => false
  | p :: ps, c :: cs => (c.toLower == p) && matchCI ps cs

/-- The regex /\.jpg|\.jpeg|\.png|\.gif$/i tried at one position: the
alternatives in order, the last one anchored at the end; returns the match
length. -/
def extMatchAt (cs : List Char) : Option Nat :=
  if matchCI ['.', 'j', 'p', 'g'] cs then some 4
  else if matchCI ['.', 'j', 'p', 'e', 'g'] cs then some 5
  else if matchCI ['.', 'p', 'n', 'g'] cs then some 4
  else if matchCI ['.', 'g', 'i', 'f'] cs && cs.length == 4 then some 4
  else none

/-- item.name.replace(/\.jpg|\.jpeg|\.png|\.gif$/i, ''): remove the
leftmost match, if any. -/
def replaceFirstExt : List Char → List Char
  | [] => []
  | c :: cs =>
    match extMatchAt (c :: cs) with
    | some k => (c :: cs).drop k
    | none => c :: replaceFirstExt cs

/-- The character class kept by baseName.replace(/[^a-zA-Z0-9\s\.\-]/g, ''). -/
def keepSan (c : Char) : Bool :=
  c.isAlphanum || jsWhite c || c == '.' || c == '-'

/-- The cleaned filename handleAutoSave writes:
`${baseName.replace(/[^a-zA-Z0-9\s\.\-]/g, '').trim()}.png` where baseName
is item.name with the first image extension removed. -/
def savedFileName (name : String) : String :=
  ⟨jsTrimL ((replaceFirstExt name.data).filter keepSan)⟩ ++ ".png"

/-- The bytes handleAutoSave writes for one artifact:
Buffer.from(item.dataUrl.split(';base64,').pop(), 'base64'). -/
def savedBytes (a : Artifact) : List Nat :=
  b64decodeL (jsSplitPop a.dataUrl).data

/-! ## Filesystem state and the pipeline

The filesystem is explicit state: the directories that exist and the files
that exist, a file being (directory, filename, content bytes). -/

/-- Filesystem state. -/
structure FS where
  dirs : List String
  files : List (String × String × List Nat)
deriving DecidableEq

/-- fs.existsSync on a directory path. -/
def existsSyncDir (fs : FS) (d : String) : Bool := fs.dirs.contains d

/-- fs.mkdirSync without the recursive option: an error when the directory
already exists, otherwise the directory is added. -/
def mkdirSync (fs : FS) (d : String) : Except String FS :=
  if fs.dirs.contains d then Except.error ("EEXIST: file already exists, mkdir " ++ d)
  else Except.ok { fs with dirs := d :: fs.dirs }

/-- The render backend writing its output files into the workspace
directory. -/
def writeFiles (fs : FS) (d : String) (items : List (String × List Nat)) : FS :=
  { fs with files := fs.files ++ items.map (fun it => (d, it.1, it.2)) }

/-- fs.readdirSync on a directory: the filenames of the files in it. -/
def readdirSync (fs : FS) (d : String) : List String :=
  (fs.files.filter (fun t => t.1 == d)).map (fun t => t.2.1)

/-- fs.readFileSync on directory d, filename n. -/
def readFileSync (fs : FS) (d n : String) : List Nat :=
  (((fs.files.filter (fun t => t.1 == d && t.2.1 == n)).map (fun t => t.2.2)).getD 0 [])

/-- fs.rmSync with the recursive and force options: remove the directory
and every file in it; absent targets are not an error. -/
def rmSyncRec (fs : FS) (d : String) : FS :=
  { dirs := fs.dirs.filter (fun x => x ≠ d)
    files := fs.files.filter (fun t => t.1 ≠ d) }

/-- os.tmpdir(). -/
def osTmpdir : String := "/tmp"

/-- path.join of a directory and an entry name. -/
def joinPath (d n : String) : String := d ++ "/" ++ n

/-- The workspace path: path.join(os.tmpdir(), `pdf-extract-` + Date.now()),
as a function of the millisecond clock reading. -/
def tempDirName (now : Nat) : String :=
  joinPath osTmpdir ("pdf-extract-" ++ toString now)

/-- The run environment of one extractImagesAndLabels call: whether the
input path exists, the clock reading, the successive regex matches of the
parsed text, and the outcome of the render backend (a diagnostic error, or
the (filename, bytes) files it writes into the workspace). -/
structure RunEnv where
  pdfExists : Bool
  now : Nat
  textMatches : List String
  render : Except String (List (String × List Nat))

/-- The value extractImagesAndLabels resolves with. -/
structure ExtractResult where
  imagesWithLabels : List Artifact
  tempDirectory : String
deriving DecidableEq

/-- extractImagesAndLabels of src/pdf-extract-library.js: validate the
input path, create the workspace, collect labels from the text matches,
run the render backend, list and natural-sort the png files of the
workspace, and run the pairing loop.  The filesystem state after the call
is returned on every path (on a thrown error it is the state at the point
of the throw; note the function itself removes nothing). -/
def extractImagesAndLabels (env : RunEnv) (fs : FS) :
    Except String ExtractResult × FS :=
  if !env.pdfExists then
    (Except.error "PDF not found", fs)
  else
    let tempDir := tempDirName env.now
    match mkdirSync fs tempDir with
    | Except.error e => (Except.error e, fs)
    | Except.ok fs1 =>
      let foundLabels := collectLabels env.textMatches
      match env.render with
      | Except.error e => (Except.error e, fs1)
      | Except.ok rendered =>
        let fs2 := writeFiles fs1 tempDir rendered
        let extractedFiles :=
          naturalSort ((readdirSync fs2 tempDir).filter (fun f => jsEndsWith f ".png"))
        (Except.ok
          { imagesWithLabels := pairLoop foundLabels extractedFiles (readFileSync fs2 tempDir)
            tempDirectory := tempDir },
         fs2)

/-- The per-run save summary handleAutoSave returns. -/
structure SaveStatus where
  success : Bool
  filesSaved : Nat
deriving DecidableEq

/-- handleAutoSave of main.js: create the save directory when absent, then
write every artifact as a file named by its cleaned filename, with the
bytes decoded from its dataUrl payload.  Per-item write failures are
caught inside the loop, so the call never throws. -/
def handleAutoSave (fs : FS) (savePath : String) (items : List Artifact) :
    FS × SaveStatus :=
  let fs1 := if existsSyncDir fs savePath then fs
             else { fs with dirs := savePath :: fs.dirs }
  let fs2 := { fs1 with
    files := fs1.files ++ items.map (fun a => (savePath, savedFileName a.name, savedBytes a)) }
  (fs2, { success := true, filesSaved := items.length })

/-- The start-processing handler of main.js, with the extraction library
of src/pdf-extract-library.js: tempDir starts null, extraction runs inside
the try, on success tempDir receives the returned tempDirectory and
handleAutoSave runs, and the finally block removes tempDir when it is
non-null and exists.  The third component counts the rmSync invocations of
the finally block. -/
def startProcessing (env : RunEnv) (savePath : String) (fs : FS) :
    Except String (List Artifact × SaveStatus) × FS × Nat :=
  match extractImagesAndLabels env fs with
  | (Except.error e, fs1) =>
    -- catch rethrows; finally sees tempDir still null, so no cleanup
    (Except.error ("Failed to process PDF: " ++ e), fs1, 0)
  | (Except.ok r, fs1) =>
    let saved := handleAutoSave fs1 savePath r.imagesWithLabels
    -- finally: tempDir is non-null; remove it when it exists
    if existsSyncDir saved.1 r.tempDirectory then
      (Except.ok (r.imagesWithLabels, saved.2), rmSyncRec saved.1 r.tempDirectory, 1)
    else
      (Except.ok (r.imagesWithLabels, saved.2), saved.1, 0)

/-- The clear-temp handler: when the path is non-null (non-empty) and
exists, rmSync it recursively inside a try/catch whose catch only logs.
The second component reports whether an error reached the caller (never). -/
def clearTemp (fs : FS) (tempDirPath : String) : FS × Bool :=
  if tempDirPath != "" && existsSyncDir fs tempDirPath then
    (rmSyncRec fs tempDirPath, false)
  else
    (fs, false)

/-! ## Shared helper lemmas -/

/-- Filtering away a value removes it from contains. -/
theorem contains_filter_ne_self (l : List String) (d : String) :
    (l.filter (fun x => x ≠ d)).contains d = false := by
  rw [Bool.eq_false_iff]
  intro h
  have hm : d ∈ l.filter (fun x => x ≠ d) := List.elem_iff.mp h
  have := (List.mem_filter.mp hm).2
  simp at this

/-- The sort keeps the length of the listing. -/
theorem naturalSort_length (l : List String) : (naturalSort l).length = l.length :=
  (List.perm_insertionSort naturalLe l).length_eq

/-- Swapping the arguments of the Nat comparison swaps the result. -/
theorem natCompare_swap (a b : Nat) : compare b a = (compare a b).swap := by
  rcases Nat.lt_trichotomy a b with h | h | h
  · rw [Nat.compare_eq_lt.mpr h, Nat.compare_eq_gt.mpr h]
    rfl
  · subst h
    rw [Nat.compare_eq_eq.mpr rfl]
    rfl
  · rw [Nat.compare_eq_gt.mpr h, Nat.compare_eq_lt.mpr h]
    rfl

/-- Swapping the arguments of the token comparison swaps the result. -/
theorem cmpTok_swap (x y : NToken) : cmpTok y x = (cmpTok x y).swap := by
  cases x <;> cases y <;> first
    | rfl
    | exact natCompare_swap _ _

/-- Tokens comparing equal are equal. -/
theorem cmpTok_eq {x y : NToken} (h : cmpTok x y = Ordering.eq) : x = y := by
  cases x <;> cases y <;> simp [cmpTok] at h ⊢ <;> exact Nat.compare_eq_eq.mp h

/-- The token comparison is transitive on strict results. -/
theorem cmpTok_lt_trans {x y z : NToken} (h1 : cmpTok x y = Ordering.lt)
    (h2 : cmpTok y z = Ordering.lt) : cmpTok x z = Ordering.lt := by
  cases x <;> cases y <;> cases z <;> simp [cmpTok] at h1 h2 ⊢ <;>
    exact Nat.compare_eq_lt.mpr
      (Nat.lt_trans (Nat.compare_eq_lt.mp h1) (Nat.compare_eq_lt.mp h2))

/-- Swapping the arguments of the token-list comparison swaps the result. -/
theorem cmpTokens_swap (xs : List NToken) : ∀ ys,
    cmpTokens ys xs = (cmpTokens xs ys).swap := by
  induction xs with
  | nil =>
    intro ys
    cases ys <;> rfl
  | cons x xs ih =>
    intro ys
    cases ys with
    | nil => rfl
    | cons y ys =>
      simp only [cmpTokens, cmpTok_swap x y]
      cases hxy : cmpTok x y <;> simp [Ordering.swap, ih ys]

/-- Token lists comparing equal are equal. -/
theorem cmpTokens_eq : ∀ {xs ys : List NToken},
    cmpTokens xs ys = Ordering.eq → xs = ys
  | [], [], _ => rfl
  | [], _ :: _, h => by simp [cmpTokens] at h
  | _ :: _, [], h => by simp [cmpTokens] at h
  | x :: xs, y :: ys, h => by
    simp only [cmpTokens] at h
    cases hxy : cmpTok x y <;> simp only [hxy] at h
    · exact absurd h (by decide)
    · rw [cmpTok_eq hxy, cmpTokens_eq h]
    · exact absurd h (by decide)

/-- The token-list comparison is transitive on strict results. -/
theorem cmpTokens_lt_trans : ∀ {xs ys zs : List NToken},
    cmpTokens xs ys = Ordering.lt → cmpTokens ys zs = Ordering.lt →
    cmpTokens xs zs = Ordering.lt
  | [], [], _, h1, _ => by simp [cmpTokens] at h1
  | [], _ :: _, [], _, h2 => by simp [cmpTokens] at h2
  | [], _ :: _, _ :: _, _, _ => by simp [cmpTokens]
  | _ :: _, [], _, h1, _ => by simp [cmpTokens] at h1
  | _ :: _, _ :: _, [], _, h2 => by simp [cmpTokens] at h2
  | x :: xs, y :: ys, z :: zs, h1, h2 => by
    simp only [cmpTokens] at h1 h2 ⊢
    cases hxy : cmpTok x y <;> simp only [hxy] at h1
    · -- head strictly below
      cases hyz : cmpTok y z <;> simp only [hyz] at h2
      · simp only [cmpTok_lt_trans hxy hyz]
      · have hz := cmpTok_eq hyz
        subst hz
        simp only [hxy]
      · exact absurd h2 (by decide)
    · -- heads equal
      have hx := cmpTok_eq hxy
      subst hx
      cases hyz : cmpTok x z <;> simp only [hyz] at h2 ⊢
      · exact cmpTokens_lt_trans h1 h2
      · exact absurd h2 (by decide)
    · exact absurd h1 (by decide)

instance : IsTotal String naturalLe := by
  constructor
  intro a b
  unfold naturalLe naturalCompare
  by_cases h : cmpTokens (tokenize a.data) (tokenize b.data) = Ordering.gt
  · right
    rw [cmpTokens_swap, h]
    simp [Ordering.swap]
  · left
    exact h

instance : IsTrans String naturalLe := by
  constructor
  intro a b c hab hbc
  unfold naturalLe naturalCompare at hab hbc ⊢
  cases hab2 : cmpTokens (tokenize a.data) (tokenize b.data) <;> try exact absurd hab2 hab
  · cases hbc2 : cmpTokens (tokenize b.data) (tokenize c.data) <;> try exact absurd hbc2 hbc
    · rw [cmpTokens_lt_trans hab2 hbc2]
      simp
    · rw [← cmpTokens_eq hbc2, hab2]
      simp
  · rw [cmpTokens_eq hab2]
    exact hbc

/-- Inside a digit run the tokenizer keeps accumulating the integer
value. -/
theorem tokenizeAux_digits : ∀ (ds : List Char) (n : Nat),
    (∀ c ∈ ds, c.isDigit = true) →
    tokenizeAux (some n) ds
      = [NToken.num (ds.foldl (fun k d => k * 10 + (d.toNat - 48)) n)] := by
  intro ds
  induction ds with
  | nil =>
    intro n _
    rfl
  | cons c cs ih =>
    intro n h
    have hc : c.isDigit = true := h c (by simp)
    simp only [tokenizeAux, hc, if_true, List.foldl_cons]
    exact ih _ (fun x hx => h x (by simp [hx]))

/-! ## Claim theorems -/

/-- Claim C1: for every label list and every workspace listing, the
pairing loop of extractImagesAndLabels returns an Artifact list whose
length is exactly min of the two lengths, and its i-th artifact pairs
label i with the i-th rendered file in natural-sorted order. -/
theorem pairing_length_and_alignment (labels files : List String)
    (readBytes : String → List Nat) :
    (pairLoop labels (naturalSort files) readBytes).length
        = min labels.length files.length ∧
    ∀ i, i < min labels.length files.length →
      (pairLoop labels (naturalSort files) readBytes).getD i default =
        { name := labels.getD i "" ++ ".png"
          dataUrl := mkDataUrl (readBytes ((naturalSort files).getD i "")) } := by
  have hlen : (naturalSort files).length = files.length := naturalSort_length files
  constructor
  · simp [pairLoop, hlen]
  · intro i hi
    have hi2 : i < (pairLoop labels (naturalSort files) readBytes).length := by
      simp [pairLoop, hlen]
      omega
    rw [List.getD_eq_getElem _ _ hi2]
    simp only [pairLoop, List.getElem_map, List.getElem_range]

/-- Witness for C1 at a concrete input. -/
theorem pairing_length_and_alignment_witness :
    (0 : Nat) < min 2 2 ∧
    (pairLoop ["a", "b"] (naturalSort ["f2", "f1"]) (fun _ => [])).getD 0 default =
      { name := "a" ++ ".png", dataUrl := mkDataUrl [] } :=
  ⟨by decide,
   (pairing_length_and_alignment ["a", "b"] ["f2", "f1"] (fun _ => [])).2 0 (by decide)⟩

/-- Members of firstOcc come from the list. -/
theorem mem_firstOcc (l : List String) (a : String) (h : a ∈ firstOcc l) : a ∈ l := by
  match l with
  | [] =>
    rw [firstOcc] at h
    exact absurd h (List.not_mem_nil a)
  | x :: xs =>
    rw [firstOcc] at h
    rcases List.mem_cons.mp h with h1 | h1
    · exact h1 ▸ List.mem_cons_self x xs
    · have h2 := mem_firstOcc (xs.filter (fun y => y ≠ x)) a h1
      exact List.mem_cons_of_mem x (List.mem_filter.mp h2).1
termination_by l.length
decreasing_by
  have := (List.filter_sublist (l := xs) (p := fun y => decide (y ≠ x))).length_le
  simp only [List.length_cons]
  omega

/-- firstOcc keeps no duplicates. -/
theorem nodup_firstOcc (l : List String) : (firstOcc l).Nodup := by
  match l with
  | [] =>
    rw [firstOcc]
    exact List.nodup_nil
  | x :: xs =>
    rw [firstOcc]
    refine List.nodup_cons.mpr ⟨?_, nodup_firstOcc _⟩
    intro hmem
    have h2 := mem_firstOcc _ _ hmem
    have h3 := (List.mem_filter.mp h2).2
    simp at h3
termination_by l.length
decreasing_by
  have := (List.filter_sublist (l := xs) (p := fun y => decide (y ≠ x))).length_le
  simp only [List.length_cons]
  omega

/-- The label-collection fold from an arbitrary accumulator appends the
first occurrences of the trimmed matches not already collected. -/
theorem foldl_labelStep (ms : List String) : ∀ acc : List String,
    ms.foldl labelStep acc
      = acc ++ firstOcc ((ms.map jsTrim).filter (fun x => !acc.contains x)) := by
  induction ms with
  | nil =>
    intro acc
    simp [firstOcc]
  | cons m rest ih =>
    intro acc
    simp only [List.foldl_cons, List.map_cons, List.filter_cons, labelStep]
    by_cases hc : acc.contains (jsTrim m) = true
    · simp only [hc, if_true, Bool.not_true, Bool.false_eq_true, if_false]
      exact ih acc
    · have hcf : acc.contains (jsTrim m) = false := by
        simpa using hc
      simp only [hcf, Bool.false_eq_true, if_false, Bool.not_false, if_true]
      rw [ih (acc ++ [jsTrim m])]
      rw [firstOcc, List.filter_filter]
      have hfc : (rest.map jsTrim).filter (fun x => !(acc ++ [jsTrim m]).contains x)
          = (rest.map jsTrim).filter
              (fun y => decide (y ≠ jsTrim m) && !acc.contains y) := by
        apply List.filter_congr
        intro x _
        by_cases hx : x = jsTrim m
        · simp [hx]
        · by_cases hm : x ∈ acc
          · simp [hx, hm]
          · simp [hx, hm]
      rw [hfc]
      simp [List.append_assoc]

/-- Claim C2: the label extractor output is the trimmed matches with
duplicates discarded in first-occurrence order; no matches gives the empty
list rather than an error. -/
theorem labelExtractor_dedup_firstOccurrence (ms : List String) :
    collectLabels ms = firstOcc (ms.map jsTrim) ∧
    (collectLabels ms).Nodup ∧
    collectLabels [] = [] := by
  have heq : collectLabels ms = firstOcc (ms.map jsTrim) := by
    unfold collectLabels
    rw [foldl_labelStep ms []]
    simp [List.contains]
  exact ⟨heq, heq ▸ nodup_firstOcc _, rfl⟩

/-- Claim C3: the workspace listing is sorted by natural, numeric-aware
order: the concrete example sorts as specified, the sort returns a
permutation of the input ordered by the natural comparator, digit-run
tokens are compared as integers, and a pure digit run tokenizes to the
single integer token of its value. -/
theorem naturalSort_spec :
    naturalSort ["img_1.png", "img_10.png", "img_2.png"]
        = ["img_1.png", "img_2.png", "img_10.png"] ∧
    (∀ l : List String, (naturalSort l).Perm l ∧ List.Sorted naturalLe (naturalSort l)) ∧
    (∀ m n : Nat, cmpTok (NToken.num m) (NToken.num n) = compare m n) ∧
    (∀ ds : List Char, ds ≠ [] → (∀ c ∈ ds, c.isDigit = true) →
        tokenize ds = [NToken.num (digitsVal ds)]) := by
  refine ⟨by decide, ?_, fun m n => rfl, ?_⟩
  · intro l
    exact ⟨List.perm_insertionSort naturalLe l, List.sorted_insertionSort naturalLe l⟩
  · intro ds hne hdig
    match ds with
    | [] => exact absurd rfl hne
    | c :: cs =>
      have hc : c.isDigit = true := hdig c (by simp)
      unfold tokenize
      simp only [tokenizeAux, hc, if_true]
      rw [tokenizeAux_digits cs (c.toNat - 48) (fun x hx => hdig x (by simp [hx]))]
      simp [digitsVal]

/-- Witness for C3 at a concrete digit run. -/
theorem naturalSort_spec_witness :
    (['4', '2'] : List Char) ≠ [] ∧
    tokenize ['4', '2'] = [NToken.num (digitsVal ['4', '2'])] :=
  ⟨by decide, naturalSort_spec.2.2.2 ['4', '2'] (by decide) (by decide)⟩

/-- A directory with no files listed in it yields an empty listing. -/
theorem readdir_no_stray (fs : FS) (d : String)
    (h : ∀ t ∈ fs.files, (t.1 == d) = false) :
    readdirSync fs d = [] := by
  unfold readdirSync
  rw [List.filter_eq_nil_iff.mpr (fun a ha => by simp [h a ha])]
  rfl

/-- Pairing against an empty listing yields no artifacts. -/
theorem pairLoop_nil_files (labels : List String) (rb : String → List Nat) :
    pairLoop labels [] rb = [] := by
  simp [pairLoop]

/-- Normal form of extractImagesAndLabels when the render backend
produces no files: the call succeeds with an empty artifact list. -/
theorem extract_render_nil (env : RunEnv) (fs : FS)
    (hpdf : env.pdfExists = true)
    (hmk : fs.dirs.contains (tempDirName env.now) = false)
    (hnostray : ∀ t ∈ fs.files, (t.1 == tempDirName env.now) = false)
    (hr : env.render = Except.ok []) :
    extractImagesAndLabels env fs
      = (Except.ok { imagesWithLabels := [], tempDirectory := tempDirName env.now },
          writeFiles { fs with dirs := tempDirName env.now :: fs.dirs }
            (tempDirName env.now) []) := by
  have hread : readdirSync
      (writeFiles { fs with dirs := tempDirName env.now :: fs.dirs }
        (tempDirName env.now) []) (tempDirName env.now) = [] := by
    apply readdir_no_stray
    intro t ht
    simp only [writeFiles, List.map_nil, List.append_nil] at ht
    exact hnostray t ht
  unfold extractImagesAndLabels mkdirSync
  simp only [hpdf, hmk, hr, Bool.not_true, Bool.false_eq_true, if_false, hread,
    List.filter_nil]
  rw [show naturalSort [] = [] from rfl, pairLoop_nil_files]

/-- Claim C4 counterexample: a run with a non-empty label list whose
pairing produces zero artifacts returns a successful empty result, not a
failure. -/
theorem noArtifacts_success_counterexample :
    collectLabels ["2001.3.4 Vase"] ≠ [] ∧
    (startProcessing
        { pdfExists := true, now := 0, textMatches := ["2001.3.4 Vase"],
          render := Except.ok [] }
        "/save" ⟨[], []⟩).1
      = Except.ok ([], { success := true, filesSaved := 0 }) := by
  constructor
  · decide
  · rfl

/-- Claim C4 (amended): when labels are non-empty and pairing produces
zero artifacts, the pipeline returns a successful result carrying an
empty artifact list (there is no failure transition for this case). -/
theorem zeroArtifacts_returns_empty_success (env : RunEnv) (savePath : String) (fs : FS)
    (hpdf : env.pdfExists = true)
    (hmk : fs.dirs.contains (tempDirName env.now) = false)
    (hnostray : ∀ t ∈ fs.files, (t.1 == tempDirName env.now) = false)
    (hr : env.render = Except.ok [])
    (hlabels : collectLabels env.textMatches ≠ []) :
    (startProcessing env savePath fs).1
      = Except.ok ([], { success := true, filesSaved := 0 }) := by
  unfold startProcessing
  rw [extract_render_nil env fs hpdf hmk hnostray hr]
  simp only [handleAutoSave, List.map_nil, List.append_nil, List.length_nil]
  by_cases hs : existsSyncDir
      (writeFiles { fs with dirs := tempDirName env.now :: fs.dirs }
        (tempDirName env.now) []) savePath = true
  · simp only [hs, if_true]
    have : existsSyncDir
        (writeFiles { fs with dirs := tempDirName env.now :: fs.dirs }
          (tempDirName env.now) []) (tempDirName env.now) = true := by
      unfold existsSyncDir writeFiles
      exact List.elem_iff.mpr (List.mem_cons_self _ _)
    simp [this]
  · simp only [Bool.not_eq_true] at hs
    simp only [hs, Bool.false_eq_true, if_false]
    have : existsSyncDir
        { dirs := savePath :: (writeFiles { fs with dirs := tempDirName env.now :: fs.dirs }
            (tempDirName env.now) []).dirs,
          files := (writeFiles { fs with dirs := tempDirName env.now :: fs.dirs }
            (tempDirName env.now) []).files } (tempDirName env.now) = true := by
      unfold existsSyncDir writeFiles
      exact List.elem_iff.mpr (List.mem_cons_of_mem _ (List.mem_cons_self _ _))
    simp [this]

/-- Witness for the amended C4 at a concrete input. -/
theorem zeroArtifacts_witness :
    (startProcessing
        { pdfExists := true, now := 3, textMatches := ["2001.3.4 Vase"],
          render := Except.ok [] }
        "/save" ⟨[], []⟩).1
      = Except.ok ([], { success := true, filesSaved := 0 }) :=
  zeroArtifacts_returns_empty_success
    { pdfExists := true, now := 3, textMatches := ["2001.3.4 Vase"],
      render := Except.ok [] }
    "/save" ⟨[], []⟩ rfl (by decide) (by decide) rfl (by decide)

/-- Shape of a successful mkdirSync. -/
theorem mkdirSync_ok {fs fs1 : FS} {d : String} (h : mkdirSync fs d = Except.ok fs1) :
    fs1 = { fs with dirs := d :: fs.dirs } ∧ fs.dirs.contains d = false := by
  unfold mkdirSync at h
  by_cases hm : d ∈ fs.dirs
  · rw [if_pos (List.elem_iff.mpr hm)] at h
    exact absurd h (by simp)
  · rw [if_neg (fun hc => hm (List.elem_iff.mp hc))] at h
    simp only [Except.ok.injEq] at h
    refine ⟨h.symm, ?_⟩
    rw [Bool.eq_false_iff]
    intro hc
    exact hm (List.elem_iff.mp hc)

/-- handleAutoSave never removes a directory. -/
theorem handleAutoSave_dirs_mono (fs : FS) (savePath : String) (items : List Artifact)
    (d : String) (h : d ∈ fs.dirs) :
    d ∈ ((handleAutoSave fs savePath items).1).dirs := by
  unfold handleAutoSave
  by_cases hs : existsSyncDir fs savePath = true
  · simp only [hs, if_true]
    exact h
  · simp only [Bool.not_eq_true] at hs
    simp only [hs, Bool.false_eq_true, if_false]
    exact List.mem_cons_of_mem _ h

/-- Shape of a successful extractImagesAndLabels call: the result carries
the workspace path, and the filesystem after the call still holds the
workspace on top of the initial directories. -/
theorem extract_ok_shape (env : RunEnv) (fs : FS) (r : ExtractResult) (fsA : FS)
    (h : extractImagesAndLabels env fs = (Except.ok r, fsA)) :
    r.tempDirectory = tempDirName env.now ∧
    fsA.dirs = tempDirName env.now :: fs.dirs := by
  unfold extractImagesAndLabels at h
  by_cases hp : env.pdfExists = true
  · simp only [hp, Bool.not_true, Bool.false_eq_true, if_false] at h
    cases hmk : mkdirSync fs (tempDirName env.now) with
    | error e =>
      rw [hmk] at h
      simp at h
    | ok fs1 =>
      rw [hmk] at h
      cases hr : env.render with
      | error e =>
        rw [hr] at h
        simp at h
      | ok items =>
        rw [hr] at h
        simp only [Prod.mk.injEq, Except.ok.injEq] at h
        obtain ⟨h1, h2⟩ := h
        have hfs1 := (mkdirSync_ok hmk).1
        constructor
        · rw [← h1]
        · rw [← h2]
          unfold writeFiles
          rw [hfs1]
  · simp only [Bool.not_eq_true] at hp
    simp [hp] at h

/-- Claim C5 counterexample: on a render failure the start-processing
handler performs zero cleanup invocations and the workspace directory is
left behind, because the error propagates before tempDirectory reaches
the handler. -/
theorem renderFailure_no_cleanup_counterexample :
    (startProcessing
        { pdfExists := true, now := 0, textMatches := [],
          render := Except.error "pdftocairo exited 1" }
        "/save" ⟨[], []⟩).2.2 = 0 ∧
    ((startProcessing
        { pdfExists := true, now := 0, textMatches := [],
          render := Except.error "pdftocairo exited 1" }
        "/save" ⟨[], []⟩).2.1).dirs = [tempDirName 0] := by
  constructor <;> rfl

/-- Claim C5 (amended): the finally-block cleanup runs exactly once on
runs where extractImagesAndLabels returns (and it removes the workspace),
but zero times on runs where extraction throws (backend/render failure),
because the handler never learns the workspace path on those runs. -/
theorem cleanup_once_iff_extract_returns (env : RunEnv) (savePath : String) (fs : FS) :
    ((extractImagesAndLabels env fs).1.isOk = false →
        (startProcessing env savePath fs).2.2 = 0) ∧
    (∀ r fsA, extractImagesAndLabels env fs = (Except.ok r, fsA) →
        (startProcessing env savePath fs).2.2 = 1 ∧
        ((startProcessing env savePath fs).2.1).dirs.contains r.tempDirectory = false) := by
  constructor
  · intro hfail
    rcases hext : extractImagesAndLabels env fs with ⟨res, fs1⟩
    cases res with
    | error e =>
      unfold startProcessing
      rw [hext]
    | ok r =>
      rw [hext] at hfail
      simp [Except.isOk, Except.toBool] at hfail
  · intro r fsA h
    have hshape := extract_ok_shape env fs r fsA h
    have hmem : r.tempDirectory ∈ fsA.dirs := by
      rw [hshape.2, hshape.1]
      exact List.mem_cons_self _ _
    have hex1 : existsSyncDir (handleAutoSave fsA savePath r.imagesWithLabels).1
        r.tempDirectory = true :=
      List.elem_iff.mpr (handleAutoSave_dirs_mono fsA savePath _ _ hmem)
    unfold startProcessing
    rw [h]
    simp only [hex1, if_true]
    refine ⟨by simp, ?_⟩
    unfold rmSyncRec
    exact contains_filter_ne_self _ _

/-- Witness for the amended C5 at a concrete input. -/
theorem cleanup_once_witness :
    (startProcessing
        { pdfExists := true, now := 2, textMatches := [], render := Except.ok [] }
        "/save" ⟨[], []⟩).2.2 = 1 ∧
    ((startProcessing
        { pdfExists := true, now := 2, textMatches := [], render := Except.ok [] }
        "/save" ⟨[], []⟩).2.1).dirs.contains
      (ExtractResult.tempDirectory ⟨[], tempDirName 2⟩) = false :=
  (cleanup_once_iff_extract_returns
      { pdfExists := true, now := 2, textMatches := [], render := Except.ok [] }
      "/save" ⟨[], []⟩).2
    ⟨[], tempDirName 2⟩ ⟨[tempDirName 2], []⟩ rfl

/-- Claim C9 counterexample: two runs that observe the same millisecond
clock value receive the same workspace name — the first run creates it,
and the second run then fails with EEXIST — so the name is not
collision-free across concurrent runs. -/
theorem tempDir_collision_counterexample :
    ((extractImagesAndLabels
        { pdfExists := true, now := 5, textMatches := [], render := Except.ok [] }
        ⟨[], []⟩).2).dirs = [tempDirName 5] ∧
    (extractImagesAndLabels
        { pdfExists := true, now := 5, textMatches := [], render := Except.ok [] }
        ((extractImagesAndLabels
            { pdfExists := true, now := 5, textMatches := [], render := Except.ok [] }
            ⟨[], []⟩).2)).1
      = Except.error ("EEXIST: file already exists, mkdir " ++ tempDirName 5) := by
  constructor <;> rfl

/-- Claim C9 (amended): the workspace name is derived from the
millisecond clock alone, so equal clock readings give equal names (no
uniqueness across runs in the same millisecond); creation fails with an
I/O error exactly when the directory cannot be created because it already
exists, and otherwise creates it. -/
theorem workspace_create_spec (fs : FS) (t : Nat) :
    (fs.dirs.contains (tempDirName t) = true →
        ∃ e, mkdirSync fs (tempDirName t) = Except.error e) ∧
    (fs.dirs.contains (tempDirName t) = false →
        mkdirSync fs (tempDirName t)
          = Except.ok { fs with dirs := tempDirName t :: fs.dirs }) ∧
    (∀ t2 : Nat, t = t2 → tempDirName t = tempDirName t2) := by
  refine ⟨?_, ?_, ?_⟩
  · intro hc
    refine ⟨"EEXIST: file already exists, mkdir " ++ tempDirName t, ?_⟩
    unfold mkdirSync
    rw [if_pos hc]
  · intro hc
    unfold mkdirSync
    rw [if_neg (by rw [hc]; exact Bool.false_ne_true)]
  · intro t2 ht
    rw [ht]

/-- Witness for the amended C9 at a concrete input. -/
theorem workspace_create_spec_witness :
    ∃ e, mkdirSync ⟨[tempDirName 9], []⟩ (tempDirName 9) = Except.error e :=
  (workspace_create_spec ⟨[tempDirName 9], []⟩ 9).1 (by decide)

/-- Claim C10: on a successful run, extractImagesAndLabels itself deletes
nothing — the workspace directory is pushed onto the filesystem and still
present afterwards with every rendered file inside, and the result
carries its path in tempDirectory for the caller to delete. -/
theorem extract_preserves_workspace (env : RunEnv) (fs : FS)
    (hpdf : env.pdfExists = true)
    (hmk : fs.dirs.contains (tempDirName env.now) = false)
    (items : List (String × List Nat))
    (hr : env.render = Except.ok items) :
    ((extractImagesAndLabels env fs).2).dirs = tempDirName env.now :: fs.dirs ∧
    (∀ p ∈ items,
        (tempDirName env.now, p.1, p.2) ∈ ((extractImagesAndLabels env fs).2).files) ∧
    Except.map ExtractResult.tempDirectory (extractImagesAndLabels env fs).1
      = Except.ok (tempDirName env.now) := by
  unfold extractImagesAndLabels mkdirSync
  simp only [hpdf, hmk, hr, Bool.not_true, Bool.false_eq_true, if_false]
  refine ⟨rfl, ?_, rfl⟩
  intro p hp
  unfold writeFiles
  exact List.mem_append_right _
    (List.mem_map_of_mem (fun it => (tempDirName env.now, it.1, it.2)) hp)

/-- Witness for C10 at a concrete input. -/
theorem extract_preserves_workspace_witness :
    ((extractImagesAndLabels
        { pdfExists := true, now := 7, textMatches := ["m"],
          render := Except.ok [("img_1.png", [9])] }
        ⟨[], []⟩).2).dirs = tempDirName 7 :: ([] : List String) ∧
    (∀ p ∈ [(("img_1.png" : String), ([9] : List Nat))],
        (tempDirName 7, p.1, p.2) ∈ ((extractImagesAndLabels
            { pdfExists := true, now := 7, textMatches := ["m"],
              render := Except.ok [("img_1.png", [9])] }
            ⟨[], []⟩).2).files) ∧
    Except.map ExtractResult.tempDirectory (extractImagesAndLabels
        { pdfExists := true, now := 7, textMatches := ["m"],
          render := Except.ok [("img_1.png", [9])] }
        ⟨[], []⟩).1
      = Except.ok (tempDirName 7) :=
  extract_preserves_workspace
    { pdfExists := true, now := 7, textMatches := ["m"],
      render := Except.ok [("img_1.png", [9])] }
    ⟨[], []⟩ rfl (by decide) [("img_1.png", [9])] rfl

/-- The artifact at a paired index. -/
theorem pairLoop_getD (labels files : List String) (rb : String → List Nat)
    (i : Nat) (hi : i < min labels.length files.length) :
    (pairLoop labels files rb).getD i default
      = { name := labels.getD i "" ++ ".png"
          dataUrl := mkDataUrl (rb (files.getD i "")) } := by
  have hi2 : i < (pairLoop labels files rb).length := by
    simp [pairLoop]
    omega
  rw [List.getD_eq_getElem _ _ hi2]
  simp only [pairLoop, List.getElem_map, List.getElem_range]

/-- Claim C6 counterexample: a label that the regex admits but whose
characters the save-time sanitizer strips (here a comma) yields an
Artifact whose name is the raw label plus .png, which differs from the
sanitized name the claim specifies. -/
theorem artifactName_unsanitized_counterexample :
    ((pairLoop ["2001.3.4 Bowl, blue"] ["img_1.png"] (fun _ => [])).getD 0 default).name
      = "2001.3.4 Bowl, blue.png" ∧
    savedFileName "2001.3.4 Bowl, blue" = "2001.3.4 Bowl blue.png" ∧
    "2001.3.4 Bowl, blue.png" ≠ "2001.3.4 Bowl blue.png" := by
  refine ⟨rfl, by decide, by decide⟩

/-- Claim C6 (amended): the pairing loop names the Artifact with the raw
label followed by .png, applying no sanitization; the sanitization that
strips illegal characters and forces the .png extension is applied only
later by handleAutoSave, which writes each artifact under its cleaned
filename. -/
theorem artifactName_raw_and_save_sanitizes (labels files : List String)
    (rb : String → List Nat) (i : Nat)
    (hi : i < min labels.length files.length) :
    ((pairLoop labels files rb).getD i default).name = labels.getD i "" ++ ".png" ∧
    ∀ (fs : FS) (savePath : String) (items : List Artifact),
      ((handleAutoSave fs savePath items).1).files
        = fs.files ++ items.map (fun a => (savePath, savedFileName a.name, savedBytes a)) := by
  constructor
  · rw [pairLoop_getD labels files rb i hi]
  · intro fs savePath items
    unfold handleAutoSave
    by_cases hs : existsSyncDir fs savePath = true
    · simp only [hs, if_true]
    · simp only [Bool.not_eq_true] at hs
      simp only [hs, Bool.false_eq_true, if_false]

/-- Witness for the amended C6 at a concrete input. -/
theorem artifactName_raw_witness :
    ((pairLoop ["2001.3.4 Bowl, blue"] ["img_1.png"] (fun _ => [])).getD 0 default).name
      = "2001.3.4 Bowl, blue" ++ ".png" :=
  (artifactName_raw_and_save_sanitizes ["2001.3.4 Bowl, blue"] ["img_1.png"]
    (fun _ => []) 0 (by decide)).1

/-- Every sextet character is in the alphabet. -/
theorem encChar_mem (n : Nat) : encChar n ∈ b64Alphabet := by
  unfold encChar
  by_cases h : n < b64Alphabet.length
  · rw [List.getD_eq_getElem _ _ h]
    exact List.getElem_mem h
  · rw [List.getD_eq_default _ _ (Nat.le_of_not_lt h)]
    decide

/-- No alphabet character is the padding or the separator head. -/
theorem alphabet_chars : ∀ c ∈ b64Alphabet, c ≠ '=' ∧ c ≠ ';' := by decide

/-- A sextet character never equals the padding character. -/
theorem encChar_bne_pad (n : Nat) : (encChar n != '=') = true := by
  have h := (alphabet_chars _ (encChar_mem n)).1
  simp [h]

/-- Decoding inverts encoding on sextet values. -/
theorem decChar_encChar : ∀ n, n < 64 → decChar (encChar n) = n := by decide

/-- Round trip of the base64 codec on byte lists. -/
theorem b64_roundtrip : ∀ (bs : List Nat), (∀ b ∈ bs, b < 256) →
    b64decodeL (encodeChunks bs) = bs
  | [], _ => rfl
  | [b1], h => by
    have hb1 : b1 < 256 := h b1 (by simp)
    have e1 : decChar (encChar (b1 / 4)) = b1 / 4 := decChar_encChar _ (by omega)
    have e2 : decChar (encChar (b1 % 4 * 16)) = b1 % 4 * 16 := decChar_encChar _ (by omega)
    simp only [encodeChunks, b64decodeL, List.filter_cons, List.filter_nil,
      encChar_bne_pad, if_true, (by decide : (('=' : Char) != '=') = false),
      Bool.false_eq_true, if_false, List.map_cons, List.map_nil, e1, e2, sexDecode,
      List.cons.injEq, and_true]
    omega
  | [b1, b2], h => by
    have hb1 : b1 < 256 := h b1 (by simp)
    have hb2 : b2 < 256 := h b2 (by simp)
    have e1 : decChar (encChar (b1 / 4)) = b1 / 4 := decChar_encChar _ (by omega)
    have e2 : decChar (encChar (b1 % 4 * 16 + b2 / 16)) = b1 % 4 * 16 + b2 / 16 :=
      decChar_encChar _ (by omega)
    have e3 : decChar (encChar (b2 % 16 * 4)) = b2 % 16 * 4 := decChar_encChar _ (by omega)
    simp only [encodeChunks, b64decodeL, List.filter_cons, List.filter_nil,
      encChar_bne_pad, if_true, (by decide : (('=' : Char) != '=') = false),
      Bool.false_eq_true, if_false, List.map_cons, List.map_nil, e1, e2, e3, sexDecode,
      List.cons.injEq, and_true]
    constructor <;> omega
  | b1 :: b2 :: b3 :: rest, h => by
    have hb1 : b1 < 256 := h b1 (by simp)
    have hb2 : b2 < 256 := h b2 (by simp)
    have hb3 : b3 < 256 := h b3 (by simp)
    have e1 : decChar (encChar (b1 / 4)) = b1 / 4 := decChar_encChar _ (by omega)
    have e2 : decChar (encChar (b1 % 4 * 16 + b2 / 16)) = b1 % 4 * 16 + b2 / 16 :=
      decChar_encChar _ (by omega)
    have e3 : decChar (encChar (b2 % 16 * 4 + b3 / 64)) = b2 % 16 * 4 + b3 / 64 :=
      decChar_encChar _ (by omega)
    have e4 : decChar (encChar (b3 % 64)) = b3 % 64 := decChar_encChar _ (by omega)
    have ih := b64_roundtrip rest (fun b hb => h b (by simp [hb]))
    have ih2 : sexDecode
        (((encodeChunks rest).filter (fun c => c != '=')).map decChar) = rest := ih
    simp only [encodeChunks, b64decodeL, List.filter_cons, encChar_bne_pad, if_true,
      List.map_cons, e1, e2, e3, e4, sexDecode, ih2, List.cons.injEq]
    refine ⟨by omega, by omega, by omega, trivial⟩

/-- Every encoded character is an alphabet character or the padding. -/
theorem encodeChunks_chars : ∀ (bs : List Nat), ∀ c ∈ encodeChunks bs,
    c ∈ b64Alphabet ∨ c = '='
  | [] => by simp [encodeChunks]
  | [b1] => by
    intro c hc
    simp only [encodeChunks, List.mem_cons, List.not_mem_nil, or_false] at hc
    rcases hc with h | h | h | h
    · exact Or.inl (h ▸ encChar_mem _)
    · exact Or.inl (h ▸ encChar_mem _)
    · exact Or.inr h
    · exact Or.inr h
  | [b1, b2] => by
    intro c hc
    simp only [encodeChunks, List.mem_cons, List.not_mem_nil, or_false] at hc
    rcases hc with h | h | h | h
    · exact Or.inl (h ▸ encChar_mem _)
    · exact Or.inl (h ▸ encChar_mem _)
    · exact Or.inl (h ▸ encChar_mem _)
    · exact Or.inr h
  | b1 :: b2 :: b3 :: rest => by
    intro c hc
    simp only [encodeChunks, List.mem_cons] at hc
    rcases hc with h | h | h | h | h
    · exact Or.inl (h ▸ encChar_mem _)
    · exact Or.inl (h ▸ encChar_mem _)
    · exact Or.inl (h ▸ encChar_mem _)
    · exact Or.inl (h ▸ encChar_mem _)
    · exact encodeChunks_chars rest c h

/-- The separator does not begin at a character that is not a semicolon. -/
theorem splitSep_not_at {c : Char} (h : c ≠ ';') (xs : List Char) :
    splitSep.isPrefixOf (c :: xs) = false := by
  have hb : ((';' : Char) == c) = false := by
    rw [beq_eq_false_iff_ne]
    exact fun he => h he.symm
  show (List.isPrefixOf (';' :: ['b', 'a', 's', 'e', '6', '4', ',']) (c :: xs)) = false
  simp only [List.isPrefixOf, hb, Bool.false_and]

/-- A list is a prefix of itself followed by anything. -/
theorem isPrefixOf_append_self : ∀ (l xs : List Char), l.isPrefixOf (l ++ xs) = true := by
  intro l
  induction l with
  | nil => intro xs; simp [List.isPrefixOf]
  | cons a as ih => intro xs; simp [List.isPrefixOf, ih]

/-- The split worker passes over a separator-free piece whole. -/
theorem splitGo_no_semi : ∀ (e acc : List Char) (fuel : Nat),
    e.length ≤ fuel → (∀ c ∈ e, c ≠ ';') →
    splitGo fuel acc e = [acc.reverse ++ e] := by
  intro e
  induction e with
  | nil =>
    intro acc fuel _ _
    cases fuel <;> simp [splitGo]
  | cons c cs ih =>
    intro acc fuel hf hc
    cases fuel with
    | zero => simp at hf
    | succ f =>
      have hpref : splitSep.isPrefixOf (c :: cs) = false :=
        splitSep_not_at (hc c (by simp)) cs
      simp only [splitGo, hpref, Bool.false_eq_true, if_false]
      rw [ih (c :: acc) f (by simpa using hf) (fun x hx => hc x (by simp [hx]))]
      simp [List.append_assoc]

/-- The split worker scans over a separator-free stretch, accumulating it
in reverse. -/
theorem splitGo_scan : ∀ (pre : List Char), (∀ c ∈ pre, c ≠ ';') →
    ∀ (acc rest : List Char) (fuel : Nat), pre.length ≤ fuel →
    splitGo fuel acc (pre ++ rest)
      = splitGo (fuel - pre.length) (pre.reverse ++ acc) rest := by
  intro pre
  induction pre with
  | nil =>
    intro _ acc rest fuel _
    simp
  | cons c pre2 ih =>
    intro hc acc rest fuel hf
    cases fuel with
    | zero => simp at hf
    | succ f =>
      have hpref : splitSep.isPrefixOf (c :: (pre2 ++ rest)) = false :=
        splitSep_not_at (hc c (by simp)) _
      show splitGo (f + 1) acc (c :: (pre2 ++ rest)) = _
      simp only [splitGo, hpref, Bool.false_eq_true, if_false]
      rw [ih (fun x hx => hc x (by simp [hx])) (c :: acc) rest f (by simpa using hf)]
      simp only [List.reverse_cons, List.append_assoc, List.length_cons,
        Nat.succ_sub_succ, List.singleton_append]

/-- The split worker at the separator: emit the piece and continue after
the separator. -/
theorem splitGo_sep (f : Nat) (acc e : List Char) :
    splitGo (f + 1) acc (splitSep ++ e) = acc.reverse :: splitGo f [] e := by
  have hpre : splitSep.isPrefixOf (';' :: (['b', 'a', 's', 'e', '6', '4', ','] ++ e))
      = true := isPrefixOf_append_self splitSep e
  have hdrop : (['b', 'a', 's', 'e', '6', '4', ','] ++ e).drop 7 = e :=
    List.drop_left ['b', 'a', 's', 'e', '6', '4', ','] e
  show splitGo (f + 1) acc (';' :: (['b', 'a', 's', 'e', '6', '4', ','] ++ e)) = _
  simp only [splitGo, hpre, if_true, hdrop]

/-- The payload of an artifact dataUrl, as extracted by handleAutoSave,
is exactly the base64 text. -/
theorem dataUrl_payload (bs : List Nat) : jsSplitPop (mkDataUrl bs) = b64encode bs := by
  have hsemi : ∀ c ∈ encodeChunks bs, c ≠ ';' := by
    intro c hc
    rcases encodeChunks_chars bs c hc with h | h
    · exact (alphabet_chars c h).2
    · rw [h]
      decide
  have hdata : (mkDataUrl bs).data
      = "data:image/png".data ++ (splitSep ++ encodeChunks bs) := by
    show ("data:image/png;base64," ++ b64encode bs).data = _
    rw [(rfl : ("data:image/png;base64," ++ b64encode bs).data
          = "data:image/png;base64,".data ++ (b64encode bs).data)]
    rfl
  have hne : ∀ c ∈ "data:image/png".data, c ≠ ';' := by decide
  unfold jsSplitPop
  rw [hdata]
  rw [splitGo_scan "data:image/png".data hne [] (splitSep ++ encodeChunks bs) _
    (by simp [List.length_append])]
  have hfuel : ("data:image/png".data ++ (splitSep ++ encodeChunks bs)).length
      - ("data:image/png".data).length = (7 + (encodeChunks bs).length) + 1 := by
    simp [List.length_append, splitSep]
    omega
  rw [hfuel, splitGo_sep]
  rw [splitGo_no_semi (encodeChunks bs) [] (7 + (encodeChunks bs).length)
    (by omega) hsemi]
  simp [List.getLastD]
  rfl

/-- Claim C7: for every artifact the pairing loop produces, decoding the
base64 payload of its dataUrl — exactly as handleAutoSave does, splitting
on the inline-encoding marker and base64-decoding the last piece — yields
the bytes of the rendered file it was read from. -/
theorem dataUrl_roundtrip (labels files : List String) (rb : String → List Nat)
    (hb : ∀ f, ∀ b ∈ rb f, b < 256) (i : Nat)
    (hi : i < min labels.length files.length) :
    savedBytes ((pairLoop labels files rb).getD i default) = rb (files.getD i "") := by
  rw [pairLoop_getD labels files rb i hi]
  show b64decodeL (jsSplitPop (mkDataUrl (rb (files.getD i "")))).data
      = rb (files.getD i "")
  rw [dataUrl_payload]
  exact b64_roundtrip _ (hb _)

/-- Witness for C7 at a concrete input. -/
theorem dataUrl_roundtrip_witness :
    savedBytes ((pairLoop ["a"] ["f"] (fun _ => [1, 255])).getD 0 default) = [1, 255] :=
  dataUrl_roundtrip ["a"] ["f"] (fun _ => [1, 255])
    (by
      intro f
      show ∀ b ∈ [1, 255], b < 256
      decide)
    0 (by decide)

/-- Claim C8: workspace cleanup is idempotent: the clear-temp handler
raises no error, and invoking it a second time after the directory was
removed is a no-op that raises no error either. -/
theorem clearTemp_idempotent (fs : FS) (d : String) :
    (clearTemp fs d).2 = false ∧
    clearTemp (clearTemp fs d).1 d = ((clearTemp fs d).1, false) := by
  have h2 : existsSyncDir (rmSyncRec fs d) d = false := by
    unfold existsSyncDir rmSyncRec
    exact contains_filter_ne_self fs.dirs d
  by_cases h : (d != "" && existsSyncDir fs d) = true
  · simp [clearTemp, h, h2]
  · simp only [Bool.not_eq_true] at h
    simp [clearTemp, h]

end PdfX
